import Mathlib

/-!
# Verification of the TimeLock proposal reconciler (`src/cli/src/cmd/time_lock.rs`)

Shallow embedding of the two core algorithms of the repository:

* `load_events` — the bisecting event fetcher (Rust `load_events`, lines 396-426).
  The unbounded async recursion is embedded with an explicit fuel parameter;
  `FetchError.fuelExhausted` is a modelling artifact that is proved unreachable
  for sufficient fuel.
* `load_proposals` — the sort-then-fold reconciler (Rust `load_proposals`,
  lines 311-386).  The Rust `HashMap<[u8;32], ProposalItem>` is embedded as a
  function map `Id → Option ProposalItem`; the Rust `panic!("proposal not
  exist")` is embedded as `Except.error`.

Machine integers (`U64`, `U256`, `[u8;32]`) are embedded as `Nat`: the code
performs no arithmetic on them other than comparisons and `(a+b)/2` on block
numbers, so no overflow is observable in the modelled fragment.
-/

namespace TimeLock

/-- 32-byte opaque proposal id (`[u8; 32]` in the source), modelled abstractly. -/
abbrev Id := Nat

/-- `ethers` address, opaque to the modelled code. -/
abbrev Address := Nat

/-- `U256`, only stored and compared by the modelled code. -/
abbrev U256 := Nat

/-- Opaque call payload (`ethers::prelude::Bytes`). -/
abbrev Bytes := List Nat

/-- Rust `enum ProposalStatus` (lines 119-124). -/
inductive ProposalStatus
  | Pending
  | Ready
  | Executed
  | Cancelled
deriving DecidableEq, Repr

/-- Payload of a `CallScheduled` event (the fields of `CallScheduledFilter`
read by `ProposalItem::from`). -/
structure CallScheduledFilter where
  id : Id
  index : U256
  target : Address
  value : U256
  data : Bytes
  predecessor : Id
  delay : U256
deriving DecidableEq, Repr

/-- Rust `struct ProposalItem` (lines 127-136). -/
structure ProposalItem where
  id : Id
  index : U256
  target : Address
  value : U256
  data : Bytes
  predecessor : Id
  delay : U256
  status : ProposalStatus
deriving DecidableEq, Repr

/-- `ProposalItem::from` (lines 138-151): build a record from a Scheduled
event, initially `Pending`.  (`from` is a Lean keyword, hence `fromFilter`.) -/
def ProposalItem.fromFilter (filter : CallScheduledFilter) : ProposalItem :=
  { id := filter.id
    index := filter.index
    target := filter.target
    value := filter.value
    data := filter.data
    predecessor := filter.predecessor
    delay := filter.delay
    status := ProposalStatus.Pending }

/-- Rust `enum TimeLockEvents` (the generated binding), restricted to the
constructors matched by `load_proposals`.  `CallExecutedFilter` and
`CancelledFilter` carry more fields in the binding but only `id` is read. -/
inductive TimeLockEvents
  | CallScheduledFilter (data : CallScheduledFilter)
  | CallExecutedFilter (id : Id)
  | CancelledFilter (id : Id)
  | MinDelayChangeFilter
  | RoleAdminChangedFilter
  | RoleGrantedFilter
  | RoleRevokedFilter
deriving DecidableEq, Repr

/-- The fields of `ethers::prelude::LogMeta` relevant to ordering: the
reconciler sorts on `block_number`; `log_index` is carried but never read. -/
structure LogMeta where
  block_number : Nat
  log_index : Nat
deriving DecidableEq, Repr

/-! ## The bisecting fetcher `load_events` -/

/-- Cause of a failed `query_with_meta` RPC call.  The Rust code receives a
single opaque error value; we tag it with a cause to be able to *state* that
the code never inspects the cause. -/
inductive QueryErr
  | rangeLimit
  | transport
deriving DecidableEq, Repr

/-- Outcome of `load_events` distinct from a successful event list.
`rangeNarrow` is the `panic!("range is already narrow")` at line 416;
`fuelExhausted` is the fuel-model artifact (unreachable for fuel ≥ width,
see the termination theorem). -/
inductive FetchError
  | rangeNarrow
  | fuelExhausted
deriving DecidableEq, Repr

/-- Rust `load_events` (lines 396-426), generic in the event payload `E`
(`(TimeLockEvents, LogMeta)` at the use site).  `q a b` is the underlying
`query_with_meta` call over `[a, b]`.  On any failure: bisect at
`mid = (a+b)/2`, panic if `mid = a ∨ mid = b`, else fetch both halves and
concatenate.  A panic in a recursive call propagates, as in Rust. -/
def load_events {E : Type} (q : Nat → Nat → Except QueryErr (List E)) :
    Nat → Nat → Nat → Except FetchError (List E)
  | 0, _, _ => .error .fuelExhausted
  | fuel + 1, from_block, to_block =>
    match q from_block to_block with
    | .ok result => .ok result
    | .error _ =>
      let mid_block := (from_block + to_block) / 2
      if mid_block = from_block ∨ mid_block = to_block then
        .error .rangeNarrow
      else do
        let left_part ← load_events q fuel from_block mid_block
        let right_part ← load_events q fuel (mid_block + 1) to_block
        .ok (left_part ++ right_part)

/-- Ground-truth chain: the events of blocks `a..b` in chain order, given the
per-block event list.  Used to state correctness of a consistent query. -/
def rangeEvents {E : Type} (blockEvents : Nat → List E) (a b : Nat) : List E :=
  ((List.range' a (b + 1 - a)).map blockEvents).flatten

/-- A query is consistent with the chain `blockEvents` when every successful
answer over `[a, b]` is exactly the chain's events of those blocks. -/
def ConsistentQuery {E : Type} (blockEvents : Nat → List E)
    (q : Nat → Nat → Except QueryErr (List E)) : Prop :=
  ∀ a b l, a ≤ b → q a b = .ok l → l = rangeEvents blockEvents a b

/-- The successful part of a query result; the Rust code observes nothing
else about a result (`match events { Ok(..) => .., Err(_) => bisect }`). -/
def okPart {E : Type} : Except QueryErr (List E) → Option (List E)
  | .ok l => some l
  | .error _ => none

/-! ## The reconciler `load_proposals` -/

/-- The reconciler's proposal map (`HashMap<[u8;32], ProposalItem>`),
embedded extensionally. -/
def PropMap := Id → Option ProposalItem

/-- `HashMap::insert` (also used for `get_mut` + field write, which is
insertion of the updated record at the same key). -/
def insertP (m : PropMap) (k : Id) (v : ProposalItem) : PropMap :=
  fun k' => if k' = k then some v else m k'

/-- The empty map `HashMap::new()`. -/
def emptyP : PropMap := fun _ => none

/-- The `panic!("proposal not exist")` at lines 343/350, embedded as an error
value carrying the violating id. -/
inductive ReconcileError
  | proposalNotExist (id : Id)
deriving DecidableEq, Repr

/-- One iteration of the event loop of `load_proposals` (lines 329-358).
`now` is the wall clock captured once at line 325; `getTs` is the
`get_timestamp` point query (line 333), embedded as a pure function of the
id.  A Scheduled event builds the record via `ProposalItem::from`, flips it
to `Ready` when `ts < now`, and inserts unconditionally; Executed/Cancelled
overwrite the status of an existing record and panic otherwise;
administrative events are ignored. -/
def stepEvent (now : Nat) (getTs : Id → Nat) (m : PropMap) :
    TimeLockEvents → Except ReconcileError PropMap
  | .CallScheduledFilter data =>
    let proposal := ProposalItem.fromFilter data
    let ts := getTs proposal.id
    let proposal :=
      if ts < now then { proposal with status := ProposalStatus.Ready } else proposal
    .ok (insertP m data.id proposal)
  | .CallExecutedFilter id =>
    match m id with
    | some r => .ok (insertP m id { r with status := ProposalStatus.Executed })
    | none => .error (.proposalNotExist id)
  | .CancelledFilter id =>
    match m id with
    | some r => .ok (insertP m id { r with status := ProposalStatus.Cancelled })
    | none => .error (.proposalNotExist id)
  | .MinDelayChangeFilter => .ok m
  | .RoleAdminChangedFilter => .ok m
  | .RoleGrantedFilter => .ok m
  | .RoleRevokedFilter => .ok m

/-- The `for event in events` loop (lines 329-358): fold `stepEvent` over the
sorted stream, propagating a panic. -/
def foldEvents (now : Nat) (getTs : Id → Nat) (m : PropMap) :
    List (TimeLockEvents × LogMeta) → Except ReconcileError PropMap
  | [] => .ok m
  | event :: rest => do
    let m' ← stepEvent now getTs m event.1
    foldEvents now getTs m' rest

/-- The comparator of line 328: `a.1.block_number.cmp(&b.1.block_number)` —
block number only, no tie-break on log index. -/
def blockLe (a b : TimeLockEvents × LogMeta) : Prop :=
  a.2.block_number ≤ b.2.block_number

instance : DecidableRel blockLe := fun a b => Nat.decLe a.2.block_number b.2.block_number

instance : IsTotal (TimeLockEvents × LogMeta) blockLe :=
  ⟨fun a b => Nat.le_total a.2.block_number b.2.block_number⟩

instance : IsTrans (TimeLockEvents × LogMeta) blockLe :=
  ⟨fun _ _ _ => Nat.le_trans⟩

/-- Line 328: `events.sort_by(|a, b| a.1.block_number.cmp(&b.1.block_number))`.
Rust's `sort_by` is a stable sort; the stable sort by a total preorder is a
unique function, so the stable `insertionSort` computes it. -/
def sortByBlock (events : List (TimeLockEvents × LogMeta)) :
    List (TimeLockEvents × LogMeta) :=
  events.insertionSort blockLe

/-- Distinctness of block numbers, the condition under which the
block-number-only sort of line 328 is deterministic. -/
def blockNe (a b : TimeLockEvents × LogMeta) : Prop :=
  a.2.block_number ≠ b.2.block_number

instance : DecidableRel blockNe := fun a b => by
  unfold blockNe; infer_instance

/-- Strict block-number order. -/
def blockLt (a b : TimeLockEvents × LogMeta) : Prop :=
  a.2.block_number < b.2.block_number

instance : IsAntisymm (TimeLockEvents × LogMeta) blockLt :=
  ⟨fun _ _ h1 h2 => absurd h1 (lt_asymm h2)⟩

/-- Lines 326-358 of `load_proposals`: sort the fetched events by block
number, then fold from the empty map. -/
def reconcile (now : Nat) (getTs : Id → Nat)
    (events : List (TimeLockEvents × LogMeta)) : Except ReconcileError PropMap :=
  foldEvents now getTs emptyP (sortByBlock events)

/-- The four `--no-*` exclusion flags of `Proposal::List`. -/
structure Flags where
  no_done : Bool
  no_ready : Bool
  no_pending : Bool
  no_cancel : Bool
deriving DecidableEq, Repr

/-- Lines 359-379: the retained-status set, built from all four statuses with
one removal per set flag (the Rust `HashSet` is order-irrelevant; a list
without duplicates embeds it). -/
def retainedStatuses (f : Flags) : List ProposalStatus :=
  let statuses : List ProposalStatus :=
    [ProposalStatus.Executed, ProposalStatus.Pending,
     ProposalStatus.Ready, ProposalStatus.Cancelled]
  let statuses := if f.no_done then statuses.filter (· ≠ ProposalStatus.Executed) else statuses
  let statuses := if f.no_pending then statuses.filter (· ≠ ProposalStatus.Pending) else statuses
  let statuses := if f.no_ready then statuses.filter (· ≠ ProposalStatus.Ready) else statuses
  if f.no_cancel then statuses.filter (· ≠ ProposalStatus.Cancelled) else statuses

/-- Line 380: `proposals.retain(|_, v| statuses.contains(&v.status))`. -/
def filterProposals (f : Flags) (m : PropMap) : PropMap :=
  fun id =>
    match m id with
    | some v => if v.status ∈ retainedStatuses f then some v else none
    | none => none

/-- The computational core of `load_proposals` (lines 311-386): reconcile the
event stream, then apply the retain filter to the resulting map. -/
def load_proposals (now : Nat) (getTs : Id → Nat) (f : Flags)
    (events : List (TimeLockEvents × LogMeta)) : Except ReconcileError PropMap :=
  (reconcile now getTs events).map (filterProposals f)

/-- The proposal id an event refers to, if any (the key the event loop
touches). -/
def eventId : TimeLockEvents → Option Id
  | .CallScheduledFilter data => some data.id
  | .CallExecutedFilter id => some id
  | .CancelledFilter id => some id
  | _ => none

/-- Whether an event is a Scheduled event for the given id. -/
def isScheduledFor (id : Id) : TimeLockEvents → Bool
  | .CallScheduledFilter data => data.id == id
  | _ => false

/-- Whether an event is a terminal (Executed/Cancelled) event for the given
id. -/
def isTerminalFor (id : Id) : TimeLockEvents → Bool
  | .CallExecutedFilter i => i == id
  | .CancelledFilter i => i == id
  | _ => false

/-- The claim-side reading of the exclusion flags: the status a flag
excludes (`no_done` ↦ Executed, `no_pending` ↦ Pending, `no_ready` ↦ Ready,
`no_cancel` ↦ Cancelled).  Stated from the spec's words, to be compared with
the code-side `retainedStatuses`. -/
def excludedStatus (f : Flags) : ProposalStatus → Bool
  | .Executed => f.no_done
  | .Pending => f.no_pending
  | .Ready => f.no_ready
  | .Cancelled => f.no_cancel

/-! ## Concrete instances used by witnesses and counterexamples -/

/-- A constant timestamp oracle. -/
def exTs (n : Nat) : Id → Nat := fun _ => n

/-- A concrete Scheduled payload with id 1. -/
def exSched : CallScheduledFilter :=
  { id := 1, index := 0, target := 7, value := 5, data := [1, 2],
    predecessor := 0, delay := 100 }

/-- A concrete log position. -/
def exMeta (b i : Nat) : LogMeta := { block_number := b, log_index := i }

/-- A Scheduled event for id 1 at block 5, log index 0. -/
def exEvS : TimeLockEvents × LogMeta := (.CallScheduledFilter exSched, exMeta 5 0)

/-- An Executed event for id 1 at block 5, log index 1 (same block as
`exEvS`, later log position). -/
def exEvE : TimeLockEvents × LogMeta := (.CallExecutedFilter 1, exMeta 5 1)

/-- A query answering block `n` with the one-element list `[n]`, failing
with a provider range-limit error exactly on the two-block range `[0, 1]`. -/
def exQueryNarrow : Nat → Nat → Except QueryErr (List Nat) := fun a b =>
  if a = 0 ∧ b = 1 then .error .rangeLimit else .ok (List.range' a (b + 1 - a))

/-- A query failing with a transport (non-range-limit) error exactly on
`[0, 2]`, succeeding elsewhere. -/
def exQueryTransport : Nat → Nat → Except QueryErr (List Nat) := fun a b =>
  if a = 0 ∧ b = 2 then .error .transport else .ok (List.range' a (b + 1 - a))

/-- A query that always fails with a transport error. -/
def exQueryFailT : Nat → Nat → Except QueryErr (List Nat) := fun _ _ => .error .transport

/-- A query that always fails with a range-limit error. -/
def exQueryFailR : Nat → Nat → Except QueryErr (List Nat) := fun _ _ => .error .rangeLimit

/-! ## Helper lemmas -/

theorem insertP_same (m : PropMap) (k : Id) (v : ProposalItem) :
    insertP m k v k = some v := by
  simp [insertP]

theorem insertP_other (m : PropMap) (k k' : Id) (v : ProposalItem) (h : k' ≠ k) :
    insertP m k v k' = m k' := by
  simp [insertP, h]

/-- An event that does not refer to `id` leaves the map's entry at `id`
unchanged. -/
theorem stepEvent_preserve (now : Nat) (getTs : Id → Nat) (m m' : PropMap)
    (ev : TimeLockEvents) (id : Id) (hne : eventId ev ≠ some id)
    (hok : stepEvent now getTs m ev = .ok m') : m' id = m id := by
  cases ev with
  | CallScheduledFilter data =>
    have hid : id ≠ data.id := by
      intro h; exact hne (by simp [eventId, h])
    simp only [stepEvent, Except.ok.injEq] at hok
    subst hok
    exact insertP_other _ _ _ _ hid
  | CallExecutedFilter i =>
    have hid : id ≠ i := by
      intro h; exact hne (by simp [eventId, h])
    cases hmi : m i with
    | none => simp [stepEvent, hmi] at hok
    | some r =>
      simp only [stepEvent, hmi, Except.ok.injEq] at hok
      subst hok
      exact insertP_other _ _ _ _ hid
  | CancelledFilter i =>
    have hid : id ≠ i := by
      intro h; exact hne (by simp [eventId, h])
    cases hmi : m i with
    | none => simp [stepEvent, hmi] at hok
    | some r =>
      simp only [stepEvent, hmi, Except.ok.injEq] at hok
      subst hok
      exact insertP_other _ _ _ _ hid
  | MinDelayChangeFilter => simp only [stepEvent, Except.ok.injEq] at hok; subst hok; rfl
  | RoleAdminChangedFilter => simp only [stepEvent, Except.ok.injEq] at hok; subst hok; rfl
  | RoleGrantedFilter => simp only [stepEvent, Except.ok.injEq] at hok; subst hok; rfl
  | RoleRevokedFilter => simp only [stepEvent, Except.ok.injEq] at hok; subst hok; rfl

/-- A fold over events none of which refer to `id` leaves the entry at `id`
unchanged. -/
theorem foldEvents_preserve (now : Nat) (getTs : Id → Nat) (id : Id) :
    ∀ (l : List (TimeLockEvents × LogMeta)) (m m' : PropMap),
      (∀ p ∈ l, eventId p.1 ≠ some id) →
      foldEvents now getTs m l = .ok m' → m' id = m id := by
  intro l
  induction l with
  | nil =>
    intro m m' _ hok
    simp only [foldEvents, Except.ok.injEq] at hok
    subst hok; rfl
  | cons p rest ih =>
    intro m m' hl hok
    simp only [foldEvents] at hok
    cases hstep : stepEvent now getTs m p.1 with
    | error e => rw [hstep] at hok; exact Except.noConfusion hok
    | ok m₁ =>
      rw [hstep] at hok
      have h1 : m₁ id = m id :=
        stepEvent_preserve now getTs m m₁ p.1 id (hl p (List.mem_cons_self p rest)) hstep
      have h2 : m' id = m₁ id :=
        ih m₁ m' (fun q hq => hl q (List.mem_cons_of_mem p hq)) hok
      rw [h2, h1]

/-- Folding a concatenation is folding the first part, then the second. -/
theorem foldEvents_append (now : Nat) (getTs : Id → Nat) :
    ∀ (l₁ l₂ : List (TimeLockEvents × LogMeta)) (m : PropMap),
      foldEvents now getTs m (l₁ ++ l₂) =
        (foldEvents now getTs m l₁).bind (fun m' => foldEvents now getTs m' l₂) := by
  intro l₁
  induction l₁ with
  | nil => intro l₂ m; rfl
  | cons p rest ih =>
    intro l₂ m
    simp only [List.cons_append, foldEvents]
    cases hstep : stepEvent now getTs m p.1 with
    | error e => rfl
    | ok m₁ => exact ih l₂ m₁

/-- A step by an event that is not a Scheduled event for `id` cannot create
an entry at `id`. -/
theorem stepEvent_preserve_none (now : Nat) (getTs : Id → Nat) (m m' : PropMap)
    (ev : TimeLockEvents) (id : Id) (hsched : isScheduledFor id ev = false)
    (hok : stepEvent now getTs m ev = .ok m') (hnone : m id = none) :
    m' id = none := by
  cases ev with
  | CallScheduledFilter data =>
    have hid : id ≠ data.id := by
      intro h; subst h; simp [isScheduledFor] at hsched
    simp only [stepEvent, Except.ok.injEq] at hok
    subst hok
    rw [insertP_other _ _ _ _ hid]; exact hnone
  | CallExecutedFilter i =>
    cases hmi : m i with
    | none => simp [stepEvent, hmi] at hok
    | some r =>
      have hid : id ≠ i := by
        intro h; subst h; rw [hnone] at hmi; exact Option.noConfusion hmi
      simp only [stepEvent, hmi, Except.ok.injEq] at hok
      subst hok
      rw [insertP_other _ _ _ _ hid]; exact hnone
  | CancelledFilter i =>
    cases hmi : m i with
    | none => simp [stepEvent, hmi] at hok
    | some r =>
      have hid : id ≠ i := by
        intro h; subst h; rw [hnone] at hmi; exact Option.noConfusion hmi
      simp only [stepEvent, hmi, Except.ok.injEq] at hok
      subst hok
      rw [insertP_other _ _ _ _ hid]; exact hnone
  | MinDelayChangeFilter => simp only [stepEvent, Except.ok.injEq] at hok; subst hok; exact hnone
  | RoleAdminChangedFilter => simp only [stepEvent, Except.ok.injEq] at hok; subst hok; exact hnone
  | RoleGrantedFilter => simp only [stepEvent, Except.ok.injEq] at hok; subst hok; exact hnone
  | RoleRevokedFilter => simp only [stepEvent, Except.ok.injEq] at hok; subst hok; exact hnone

/-- Unfolding `load_events` when the query succeeds. -/
theorem load_events_ok {E : Type} (q : Nat → Nat → Except QueryErr (List E))
    (fuel a b : Nat) (l : List E) (h : q a b = .ok l) :
    load_events q (fuel + 1) a b = .ok l := by
  simp [load_events, h]

/-- Unfolding `load_events` when the query fails on an unbisectable range:
the `panic!("range is already narrow")`. -/
theorem load_events_err_narrow {E : Type} (q : Nat → Nat → Except QueryErr (List E))
    (e : QueryErr) (fuel a b : Nat) (h : q a b = .error e)
    (hmid : (a + b) / 2 = a ∨ (a + b) / 2 = b) :
    load_events q (fuel + 1) a b = .error .rangeNarrow := by
  simp [load_events, h, hmid]

/-- Unfolding `load_events` when the query fails on a bisectable range. -/
theorem load_events_err_bisect {E : Type} (q : Nat → Nat → Except QueryErr (List E))
    (e : QueryErr) (fuel a b : Nat) (h : q a b = .error e)
    (hmid : ¬((a + b) / 2 = a ∨ (a + b) / 2 = b)) :
    load_events q (fuel + 1) a b = (do
      let left_part ← load_events q fuel a ((a + b) / 2)
      let right_part ← load_events q fuel ((a + b) / 2 + 1) b
      .ok (left_part ++ right_part)) := by
  simp [load_events, h, hmid]

/-- Adjacent block ranges concatenate to the enclosing range. -/
theorem rangeEvents_split {E : Type} (be : Nat → List E) (a m b : Nat)
    (h1 : a ≤ m) (h2 : m < b) :
    rangeEvents be a m ++ rangeEvents be (m + 1) b = rangeEvents be a b := by
  unfold rangeEvents
  rw [← List.flatten_append, ← List.map_append]
  congr 1
  have key := List.range'_append a (m + 1 - a) (b - m) 1
  simp only [one_mul] at key
  rw [show a + (m + 1 - a) = m + 1 from by omega] at key
  rw [show b - m + (m + 1 - a) = b + 1 - a from by omega] at key
  rw [show b + 1 - (m + 1) = b - m from by omega]
  exact congrArg (List.map be) key

/-- On the one-event-per-block chain, the range's events are the block
numbers themselves. -/
theorem rangeEvents_singleton (a b : Nat) :
    rangeEvents (fun n => [n]) a b = List.range' a (b + 1 - a) := by
  unfold rangeEvents
  generalize List.range' a (b + 1 - a) = l
  induction l with
  | nil => rfl
  | cons x xs ih => simp [ih]

/-- A status is in the retained set iff its exclusion flag is off: the
code-side `retainedStatuses` agrees with the claim-side `excludedStatus`. -/
theorem mem_retainedStatuses (f : Flags) (s : ProposalStatus) :
    s ∈ retainedStatuses f ↔ excludedStatus f s = false := by
  rcases f with ⟨d, r, p, c⟩
  cases d <;> cases r <;> cases p <;> cases c <;> cases s <;> decide

/-- Folding a stream with no Scheduled event for `id` but some terminal
event for `id`, starting from a map without `id`, panics. -/
theorem foldEvents_unknown_error (now : Nat) (getTs : Id → Nat) (id : Id) :
    ∀ (l : List (TimeLockEvents × LogMeta)) (m : PropMap),
      m id = none →
      (∀ p ∈ l, isScheduledFor id p.1 = false) →
      (∃ p ∈ l, isTerminalFor id p.1 = true) →
      ∃ e, foldEvents now getTs m l = .error e := by
  intro l
  induction l with
  | nil =>
    intro m _ _ hex
    rcases hex with ⟨p, hp, _⟩
    exact absurd hp (List.not_mem_nil p)
  | cons p rest ih =>
    intro m hnone hsched hex
    rcases hex with ⟨p', hp'mem, hp'term⟩
    rcases List.mem_cons.mp hp'mem with heq | htail
    · subst heq
      cases hev : p'.1 with
      | CallExecutedFilter i =>
        have hi : i = id := by simpa [isTerminalFor, hev] using hp'term
        have hstep : stepEvent now getTs m p'.1 = .error (.proposalNotExist id) := by
          rw [hev, hi]; simp [stepEvent, hnone]
        exact ⟨.proposalNotExist id, by simp only [foldEvents]; rw [hstep]; rfl⟩
      | CancelledFilter i =>
        have hi : i = id := by simpa [isTerminalFor, hev] using hp'term
        have hstep : stepEvent now getTs m p'.1 = .error (.proposalNotExist id) := by
          rw [hev, hi]; simp [stepEvent, hnone]
        exact ⟨.proposalNotExist id, by simp only [foldEvents]; rw [hstep]; rfl⟩
      | CallScheduledFilter d => simp [isTerminalFor, hev] at hp'term
      | MinDelayChangeFilter => simp [isTerminalFor, hev] at hp'term
      | RoleAdminChangedFilter => simp [isTerminalFor, hev] at hp'term
      | RoleGrantedFilter => simp [isTerminalFor, hev] at hp'term
      | RoleRevokedFilter => simp [isTerminalFor, hev] at hp'term
    · cases hstep : stepEvent now getTs m p.1 with
      | error e => exact ⟨e, by simp only [foldEvents]; rw [hstep]; rfl⟩
      | ok m₁ =>
        have hnone₁ : m₁ id = none :=
          stepEvent_preserve_none now getTs m m₁ p.1 id
            (hsched p (List.mem_cons_self p rest)) hstep hnone
        rcases ih m₁ hnone₁ (fun q hq => hsched q (List.mem_cons_of_mem p hq))
          ⟨p', htail, hp'term⟩ with ⟨e, he⟩
        refine ⟨e, ?_⟩
        simp only [foldEvents]; rw [hstep]; exact he

/-! ## Claims -/

/-- C1: on any map containing a record `r` for `id` (as created by a
Scheduled event earlier in the pass), an Executed event for `id` steps to
status `Executed` and a Cancelled event to `Cancelled`, unconditionally in
the current status; and when the stream is `pre` (creating the record),
then the terminal event, then events not referring to `id`, the final
mapping of the whole pass carries the terminal status. -/
theorem terminal_event_final_status (now : Nat) (getTs : Id → Nat)
    (pre post : List (TimeLockEvents × LogMeta)) (id : Id) (meta : LogMeta)
    (m : PropMap) (r : ProposalItem)
    (hpre : foldEvents now getTs emptyP pre = .ok m)
    (hid : m id = some r)
    (hpost : ∀ p ∈ post, eventId p.1 ≠ some id) :
    (stepEvent now getTs m (.CallExecutedFilter id) =
      .ok (insertP m id { r with status := ProposalStatus.Executed })) ∧
    (stepEvent now getTs m (.CancelledFilter id) =
      .ok (insertP m id { r with status := ProposalStatus.Cancelled })) ∧
    (∀ m₂, foldEvents now getTs emptyP
        (pre ++ (.CallExecutedFilter id, meta) :: post) = .ok m₂ →
      m₂ id = some { r with status := ProposalStatus.Executed }) ∧
    (∀ m₂, foldEvents now getTs emptyP
        (pre ++ (.CancelledFilter id, meta) :: post) = .ok m₂ →
      m₂ id = some { r with status := ProposalStatus.Cancelled }) := by
  have hstepE : stepEvent now getTs m (.CallExecutedFilter id) =
      .ok (insertP m id { r with status := ProposalStatus.Executed }) := by
    simp [stepEvent, hid]
  have hstepC : stepEvent now getTs m (.CancelledFilter id) =
      .ok (insertP m id { r with status := ProposalStatus.Cancelled }) := by
    simp [stepEvent, hid]
  refine ⟨hstepE, hstepC, ?_, ?_⟩
  · intro m₂ hfold
    rw [foldEvents_append, hpre] at hfold
    replace hfold :
        foldEvents now getTs m ((.CallExecutedFilter id, meta) :: post) = .ok m₂ := hfold
    simp only [foldEvents] at hfold
    rw [hstepE] at hfold
    replace hfold :
        foldEvents now getTs (insertP m id { r with status := ProposalStatus.Executed })
          post = .ok m₂ := hfold
    rw [foldEvents_preserve now getTs id post _ m₂ hpost hfold, insertP_same]
  · intro m₂ hfold
    rw [foldEvents_append, hpre] at hfold
    replace hfold :
        foldEvents now getTs m ((.CancelledFilter id, meta) :: post) = .ok m₂ := hfold
    simp only [foldEvents] at hfold
    rw [hstepC] at hfold
    replace hfold :
        foldEvents now getTs (insertP m id { r with status := ProposalStatus.Cancelled })
          post = .ok m₂ := hfold
    rw [foldEvents_preserve now getTs id post _ m₂ hpost hfold, insertP_same]

/-- C1 (witness): a Scheduled event for id 1 at block 1 followed by an
Executed event at block 2 ends the pass with status `Executed`. -/
theorem terminal_event_final_status_witness :
    foldEvents 100 (exTs 200) emptyP [(.CallScheduledFilter exSched, exMeta 1 0)] =
      .ok (insertP emptyP 1 (ProposalItem.fromFilter exSched)) ∧
    insertP emptyP 1 (ProposalItem.fromFilter exSched) 1 =
      some (ProposalItem.fromFilter exSched) ∧
    (∀ m₂, foldEvents 100 (exTs 200) emptyP
        ([(.CallScheduledFilter exSched, exMeta 1 0)] ++
          (.CallExecutedFilter 1, exMeta 2 0) :: []) = .ok m₂ →
      m₂ 1 = some { ProposalItem.fromFilter exSched with
        status := ProposalStatus.Executed }) :=
  ⟨rfl, rfl,
    (terminal_event_final_status 100 (exTs 200)
      [(.CallScheduledFilter exSched, exMeta 1 0)] [] 1 (exMeta 2 0)
      (insertP emptyP 1 (ProposalItem.fromFilter exSched))
      (ProposalItem.fromFilter exSched) rfl rfl
      (fun p hp => absurd hp (List.not_mem_nil p))).2.2.1⟩

/-- C3: a stream containing an Executed or Cancelled event for an id with no
Scheduled event for that id anywhere in the observed range makes the whole
reconciliation error out (the `panic!("proposal not exist")`, embedded as
`Except.error`): no output mapping is produced. -/
theorem consistency_violation (now : Nat) (getTs : Id → Nat)
    (events : List (TimeLockEvents × LogMeta)) (id : Id)
    (hnosched : ∀ p ∈ events, isScheduledFor id p.1 = false)
    (hterm : ∃ p ∈ events, isTerminalFor id p.1 = true) :
    ∃ e, reconcile now getTs events = .error e := by
  have hperm : (sortByBlock events).Perm events :=
    List.perm_insertionSort blockLe events
  apply foldEvents_unknown_error now getTs id (sortByBlock events) emptyP rfl
  · intro p hp; exact hnosched p (hperm.subset hp)
  · rcases hterm with ⟨p, hp, ht⟩
    exact ⟨p, hperm.mem_iff.mpr hp, ht⟩

/-- C3 (witness): a stream holding only `Executed(id=3)` errors out. -/
theorem consistency_violation_witness :
    (∀ p ∈ [((.CallExecutedFilter 3 : TimeLockEvents), exMeta 1 0)],
      isScheduledFor 3 p.1 = false) ∧
    (∃ p ∈ [((.CallExecutedFilter 3 : TimeLockEvents), exMeta 1 0)],
      isTerminalFor 3 p.1 = true) ∧
    (∃ e, reconcile 0 (exTs 0)
      [((.CallExecutedFilter 3 : TimeLockEvents), exMeta 1 0)] = .error e) :=
  ⟨by decide, by decide,
    consistency_violation 0 (exTs 0) _ 3 (by decide) (by decide)⟩

/-- C2 (amended): processing a Scheduled event always succeeds and creates a
record at the event's id whose status is `Ready` iff the proposal's on-chain
timestamp is strictly less than the current wall-clock time, and `Pending`
iff the timestamp is greater than or equal to it (code line 334:
`if ts.as_u64() < now`).  In particular a timestamp equal to `now` yields
`Pending`, and a timestamp of 0 yields `Ready` whenever `now > 0`. -/
theorem scheduled_initial_status (now : Nat) (getTs : Id → Nat) (m : PropMap)
    (data : CallScheduledFilter) :
    ∃ m', stepEvent now getTs m (.CallScheduledFilter data) = .ok m' ∧
      ∃ r, m' data.id = some r ∧
        (r.status = ProposalStatus.Ready ↔ getTs data.id < now) ∧
        (r.status = ProposalStatus.Pending ↔ now ≤ getTs data.id) := by
  refine ⟨insertP m data.id
      (if getTs data.id < now
        then { ProposalItem.fromFilter data with status := ProposalStatus.Ready }
        else ProposalItem.fromFilter data), rfl, ?_⟩
  refine ⟨_, insertP_same m data.id _, ?_⟩
  by_cases h : getTs data.id < now
  · simp only [if_pos h]
    constructor
    · simpa using h
    · constructor
      · intro hp; exact absurd hp (by simp)
      · intro hle; omega
  · simp only [if_neg h]
    constructor
    · constructor
      · intro hp; exact absurd hp (by simp [ProposalItem.fromFilter])
      · intro hlt; exact absurd hlt h
    · simpa [ProposalItem.fromFilter] using Nat.not_lt.mp h

/-- C2 (counterexample): with wall-clock time 100 and on-chain timestamp
exactly 100 (equal to `now`), the claim predicts status `Ready`, but the
code (`if ts < now`) leaves the freshly created record `Pending`. -/
theorem scheduled_initial_status_at_now :
    stepEvent 100 (exTs 100) emptyP (.CallScheduledFilter exSched) =
      .ok (insertP emptyP 1 (ProposalItem.fromFilter exSched)) ∧
    (insertP emptyP 1 (ProposalItem.fromFilter exSched) 1).map ProposalItem.status =
      some ProposalStatus.Pending ∧
    ProposalStatus.Pending ≠ ProposalStatus.Ready :=
  ⟨rfl, rfl, by decide⟩

/-- C7: the retain filter (lines 359-380) removes exactly the entries whose
status has its exclusion flag set and returns every retained entry
unchanged; with all four flags false (the default) the map is unchanged.
The filter is applied after folding, so it never affects computed
statuses. -/
theorem filter_projection (f : Flags) (m : PropMap) :
    (∀ id v, filterProposals f m id = some v ↔
      (m id = some v ∧ excludedStatus f v.status = false)) ∧
    filterProposals ⟨false, false, false, false⟩ m = m := by
  constructor
  · intro id v
    cases hm : m id with
    | none => simp [filterProposals, hm]
    | some w =>
      simp only [filterProposals, hm]
      by_cases h : w.status ∈ retainedStatuses f
      · rw [if_pos h]
        constructor
        · intro hv
          cases hv
          exact ⟨rfl, (mem_retainedStatuses f _).mp h⟩
        · intro hv; exact hv.1
      · rw [if_neg h]
        constructor
        · intro hv; exact Option.noConfusion hv
        · rintro ⟨h1, h2⟩
          cases h1
          exact absurd ((mem_retainedStatuses f _).mpr h2) h
  · funext id
    cases hm : m id with
    | none => simp [filterProposals, hm]
    | some w =>
      simp only [filterProposals, hm]
      rw [if_pos ((mem_retainedStatuses ⟨false, false, false, false⟩ w.status).mpr
        (by cases w.status <;> rfl))]

/-- C9: Executed and Cancelled events are frame-preserving: on a map
containing a record for the event's id, the step succeeds, rewrites only the
`status` field of that record (all of `id`, `index`, `target`, `value`,
`data`, `predecessor`, `delay` are kept, expressed by the `{ r with }`
update), and leaves every other key untouched. -/
theorem terminal_events_only_touch_status (now : Nat) (getTs : Id → Nat)
    (m : PropMap) (id : Id) (r : ProposalItem) (h : m id = some r) :
    (∃ m', stepEvent now getTs m (.CallExecutedFilter id) = .ok m' ∧
      m' id = some { r with status := ProposalStatus.Executed } ∧
      ∀ id', id' ≠ id → m' id' = m id') ∧
    (∃ m', stepEvent now getTs m (.CancelledFilter id) = .ok m' ∧
      m' id = some { r with status := ProposalStatus.Cancelled } ∧
      ∀ id', id' ≠ id → m' id' = m id') := by
  constructor
  · refine ⟨insertP m id { r with status := ProposalStatus.Executed }, ?_, ?_, ?_⟩
    · simp [stepEvent, h]
    · exact insertP_same m id _
    · intro id' hne; exact insertP_other m id id' _ hne
  · refine ⟨insertP m id { r with status := ProposalStatus.Cancelled }, ?_, ?_, ?_⟩
    · simp [stepEvent, h]
    · exact insertP_same m id _
    · intro id' hne; exact insertP_other m id id' _ hne

/-- C9 (witness): the frame property applied to a concrete one-entry map. -/
theorem terminal_events_only_touch_status_witness :
    insertP emptyP 1 (ProposalItem.fromFilter exSched) 1 =
      some (ProposalItem.fromFilter exSched) ∧
    ((∃ m', stepEvent 100 (exTs 0) (insertP emptyP 1 (ProposalItem.fromFilter exSched))
        (.CallExecutedFilter 1) = .ok m' ∧
      m' 1 = some { ProposalItem.fromFilter exSched with status := ProposalStatus.Executed } ∧
      ∀ id', id' ≠ 1 → m' id' = insertP emptyP 1 (ProposalItem.fromFilter exSched) id') ∧
    (∃ m', stepEvent 100 (exTs 0) (insertP emptyP 1 (ProposalItem.fromFilter exSched))
        (.CancelledFilter 1) = .ok m' ∧
      m' 1 = some { ProposalItem.fromFilter exSched with status := ProposalStatus.Cancelled } ∧
      ∀ id', id' ≠ 1 → m' id' = insertP emptyP 1 (ProposalItem.fromFilter exSched) id')) :=
  ⟨rfl, terminal_events_only_touch_status 100 (exTs 0)
    (insertP emptyP 1 (ProposalItem.fromFilter exSched)) 1
    (ProposalItem.fromFilter exSched) rfl⟩

/-- C10: a second Scheduled event for an id already present in the map
overwrites the record unconditionally (`proposals.insert` at line 337): the
previous record `r` — its fields and status, including an `Executed` or
`Cancelled` status — is discarded, and the stored record is rebuilt from the
new event alone, `Ready` iff its timestamp is before `now`, else
`Pending`. -/
theorem rescheduled_id_overwrites (now : Nat) (getTs : Id → Nat) (m : PropMap)
    (data : CallScheduledFilter) (r : ProposalItem) (_h : m data.id = some r) :
    ∃ m', stepEvent now getTs m (.CallScheduledFilter data) = .ok m' ∧
      m' data.id = some (if getTs data.id < now
        then { ProposalItem.fromFilter data with status := ProposalStatus.Ready }
        else ProposalItem.fromFilter data) := by
  exact ⟨insertP m data.id _, rfl, insertP_same m data.id _⟩

/-- C10 (witness): overwriting a record whose status is already `Executed`
by a fresh Scheduled event for the same id. -/
theorem rescheduled_id_overwrites_witness :
    insertP emptyP 1 { ProposalItem.fromFilter exSched with
        status := ProposalStatus.Executed } 1 =
      some { ProposalItem.fromFilter exSched with status := ProposalStatus.Executed } ∧
    (∃ m', stepEvent 100 (exTs 200)
        (insertP emptyP 1 { ProposalItem.fromFilter exSched with
          status := ProposalStatus.Executed })
        (.CallScheduledFilter exSched) = .ok m' ∧
      m' 1 = some (if exTs 200 1 < 100
        then { ProposalItem.fromFilter exSched with status := ProposalStatus.Ready }
        else ProposalItem.fromFilter exSched)) :=
  ⟨rfl, rescheduled_id_overwrites 100 (exTs 200)
    (insertP emptyP 1 { ProposalItem.fromFilter exSched with
      status := ProposalStatus.Executed }) exSched _ rfl⟩

/-- C4 (amended): for a query consistent with the chain, whose failures are
confined to ranges of at least three blocks (every one- or two-block query
succeeds), the bisecting fetch over any `[a, b]` with `a ≤ b` returns
exactly the chain's events of `[a, b]`, in chain order — each event once,
none dropped — for any failure pattern on the wider ranges. -/
theorem bisection_returns_range {E : Type} (blockEvents : Nat → List E)
    (q : Nat → Nat → Except QueryErr (List E))
    (hq : ConsistentQuery blockEvents q)
    (hsmall : ∀ x y, x ≤ y → y ≤ x + 1 → ∃ l, q x y = .ok l) :
    ∀ (fuel a b : Nat), a ≤ b → b + 1 - a ≤ fuel →
      load_events q fuel a b = .ok (rangeEvents blockEvents a b) := by
  intro fuel
  induction fuel with
  | zero => intro a b hab hfuel; omega
  | succ fuel ih =>
    intro a b hab hfuel
    cases hqa : q a b with
    | ok l => rw [load_events_ok q fuel a b l hqa, hq a b l hab hqa]
    | error e =>
      have hwide : a + 2 ≤ b := by
        by_contra hnarrow
        rcases hsmall a b hab (by omega) with ⟨l, hl⟩
        rw [hl] at hqa
        exact Except.noConfusion hqa
      have hmid : ¬((a + b) / 2 = a ∨ (a + b) / 2 = b) := by omega
      rw [load_events_err_bisect q e fuel a b hqa hmid,
        ih a ((a + b) / 2) (by omega) (by omega),
        ih ((a + b) / 2 + 1) b (by omega) (by omega)]
      exact congrArg Except.ok
        (rangeEvents_split blockEvents a ((a + b) / 2) b (by omega) (by omega))

/-- C4 (counterexample): a query that fails on the two-block range `[0, 1]`
although every single-block query succeeds.  The claim predicts the fetcher
returns the two blocks' events; the code instead hits
`panic!("range is already narrow")` (`mid == from_block`) without ever
querying the single blocks. -/
theorem bisection_two_block_failure :
    exQueryNarrow 0 0 = .ok [0] ∧
    exQueryNarrow 1 1 = .ok [1] ∧
    exQueryNarrow 0 1 = .error .rangeLimit ∧
    load_events exQueryNarrow 2 0 1 = .error .rangeNarrow :=
  ⟨rfl, rfl, rfl, rfl⟩

/-- C4 (witness): the amended theorem at the one-event-per-block chain and a
query that fails (with a transport-tagged error) only on `[0, 2]`: the fetch
bisects and returns the three events exactly once. -/
theorem bisection_returns_range_witness :
    ConsistentQuery (fun n => [n]) exQueryTransport ∧
    (∀ x y, x ≤ y → y ≤ x + 1 → ∃ l, exQueryTransport x y = .ok l) ∧
    load_events exQueryTransport 3 0 2 = .ok (rangeEvents (fun n => [n]) 0 2) := by
  have hcons : ConsistentQuery (fun n => [n]) exQueryTransport := by
    intro a b l hab hql
    unfold exQueryTransport at hql
    split at hql
    · exact Except.noConfusion hql
    · cases hql
      exact (rangeEvents_singleton a b).symm
  have hsmall : ∀ x y, x ≤ y → y ≤ x + 1 → ∃ l, exQueryTransport x y = .ok l := by
    intro x y hxy hle
    unfold exQueryTransport
    split
    · next h => omega
    · exact ⟨_, rfl⟩
  exact ⟨hcons, hsmall,
    bisection_returns_range (fun n => [n]) exQueryTransport hcons hsmall 3 0 2
      (by omega) (by omega)⟩

/-- C5: for any query failure pattern whatsoever, with fuel at least the
range width the bisecting fetch terminates in one of exactly two outcomes:
a successful event list, or the distinct fatal narrow-range error raised
when `mid = from_block ∨ mid = to_block`.  In particular the fuel-exhaustion
marker of the embedding is unreachable: the recursion cannot run forever. -/
theorem bisection_terminates {E : Type} (q : Nat → Nat → Except QueryErr (List E)) :
    ∀ (fuel a b : Nat), a ≤ b → b + 1 - a ≤ fuel →
      (∃ l, load_events q fuel a b = .ok l) ∨
        load_events q fuel a b = .error .rangeNarrow := by
  intro fuel
  induction fuel with
  | zero => intro a b hab hfuel; omega
  | succ fuel ih =>
    intro a b hab hfuel
    cases hqa : q a b with
    | ok l => exact .inl ⟨l, load_events_ok q fuel a b l hqa⟩
    | error e =>
      by_cases hmid : (a + b) / 2 = a ∨ (a + b) / 2 = b
      · exact .inr (load_events_err_narrow q e fuel a b hqa hmid)
      · rw [load_events_err_bisect q e fuel a b hqa hmid]
        rcases ih a ((a + b) / 2) (by omega) (by omega) with ⟨l1, hl1⟩ | hl1
        · rcases ih ((a + b) / 2 + 1) b (by omega) (by omega) with ⟨l2, hl2⟩ | hl2
          · rw [hl1, hl2]
            exact .inl ⟨l1 ++ l2, rfl⟩
          · rw [hl1, hl2]
            exact .inr rfl
        · rw [hl1]
          exact .inr rfl

/-- C5 (witness): a query that always fails drives `[0, 3]` to the
narrow-range fatal error — one of the theorem's two permitted outcomes —
with fuel equal to the range width. -/
theorem bisection_terminates_witness :
    (0 : Nat) ≤ 3 ∧ 3 + 1 - 0 ≤ 4 ∧
    ((∃ l, load_events exQueryFailT 4 0 3 = .ok l) ∨
      load_events exQueryFailT 4 0 3 = .error .rangeNarrow) :=
  ⟨by omega, by omega, bisection_terminates exQueryFailT 4 0 3 (by omega) (by omega)⟩

/-- C8 (amended): `load_events` never inspects the cause of a query failure:
two queries with the same successes and the same failure locations — but
arbitrarily different failure causes (range-limit vs transport) — produce
identical results.  In particular a transport error is not surfaced
immediately: like any failure it triggers bisection. -/
theorem fetch_ignores_error_cause {E : Type}
    (q q' : Nat → Nat → Except QueryErr (List E))
    (hsame : ∀ x y, okPart (q x y) = okPart (q' x y)) :
    ∀ (fuel a b : Nat), load_events q fuel a b = load_events q' fuel a b := by
  intro fuel
  induction fuel with
  | zero => intro a b; rfl
  | succ fuel ih =>
    intro a b
    cases hqa : q a b with
    | ok l =>
      have hthis := hsame a b
      rw [hqa] at hthis
      have hq' : q' a b = .ok l := by
        cases hq'ab : q' a b with
        | ok l' =>
          rw [hq'ab] at hthis
          simp only [okPart, Option.some.injEq] at hthis
          rw [hthis]
        | error e' =>
          rw [hq'ab] at hthis
          exact absurd hthis (by simp [okPart])
      rw [load_events_ok q fuel a b l hqa, load_events_ok q' fuel a b l hq']
    | error e =>
      have hthis := hsame a b
      rw [hqa] at hthis
      have hq' : ∃ e', q' a b = .error e' := by
        cases hq'ab : q' a b with
        | ok l' =>
          rw [hq'ab] at hthis
          exact absurd hthis (by simp [okPart])
        | error e' => exact ⟨e', rfl⟩
      rcases hq' with ⟨e', he'⟩
      by_cases hmid : (a + b) / 2 = a ∨ (a + b) / 2 = b
      · rw [load_events_err_narrow q e fuel a b hqa hmid,
          load_events_err_narrow q' e' fuel a b he' hmid]
      · rw [load_events_err_bisect q e fuel a b hqa hmid,
          load_events_err_bisect q' e' fuel a b he' hmid,
          ih a ((a + b) / 2), ih ((a + b) / 2 + 1) b]

/-- C8 (counterexample): a transport (non-range-limit) failure on the
bisectable range `[0, 2]` is not surfaced to the caller at all: the fetcher
bisects around it and returns the events successfully. -/
theorem transport_error_bisected :
    exQueryTransport 0 2 = .error .transport ∧
    load_events exQueryTransport 3 0 2 = .ok [0, 1, 2] :=
  ⟨rfl, rfl⟩

/-- C8 (witness): an always-transport-failing and an always-range-limit-
failing query have the same success pattern, hence identical fetch results. -/
theorem fetch_ignores_error_cause_witness :
    (∀ x y, okPart (exQueryFailT x y) = okPart (exQueryFailR x y)) ∧
    load_events exQueryFailT 4 0 3 = load_events exQueryFailR 4 0 3 :=
  ⟨fun _ _ => rfl,
    fetch_ignores_error_cause exQueryFailT exQueryFailR (fun _ _ => rfl) 4 0 3⟩

/-- C6 (amended): the pre-fold sort of line 328 orders events by block
number only — ties are left in arrival order by the stable sort, not broken
by log position.  Arrival-order independence therefore holds exactly on
streams whose events occupy pairwise distinct block numbers: for such
streams any two arrival permutations reconcile to the same result. -/
theorem reconcile_order_independent (now : Nat) (getTs : Id → Nat)
    (l₁ l₂ : List (TimeLockEvents × LogMeta))
    (hperm : l₁.Perm l₂) (hdist : l₁.Pairwise blockNe) :
    reconcile now getTs l₁ = reconcile now getTs l₂ := by
  have hsymm : ∀ {p q : TimeLockEvents × LogMeta}, blockNe p q → blockNe q p :=
    fun h => Ne.symm h
  have hsorteq : sortByBlock l₁ = sortByBlock l₂ := by
    have hp : (sortByBlock l₁).Perm (sortByBlock l₂) :=
      (List.perm_insertionSort blockLe l₁).trans
        (hperm.trans (List.perm_insertionSort blockLe l₂).symm)
    have hs₁ : List.Sorted blockLe (sortByBlock l₁) :=
      List.sorted_insertionSort blockLe l₁
    have hs₂ : List.Sorted blockLe (sortByBlock l₂) :=
      List.sorted_insertionSort blockLe l₂
    have hd₁ : (sortByBlock l₁).Pairwise blockNe :=
      ((List.perm_insertionSort blockLe l₁).pairwise_iff
        (fun hab => hsymm hab)).mpr hdist
    have hd₂ : (sortByBlock l₂).Pairwise blockNe :=
      ((List.perm_insertionSort blockLe l₂).pairwise_iff
        (fun hab => hsymm hab)).mpr
        ((hperm.pairwise_iff (fun hab => hsymm hab)).mp hdist)
    have hstrict₁ : List.Sorted blockLt (sortByBlock l₁) :=
      (List.Pairwise.and hs₁ hd₁).imp
        (fun h => Nat.lt_of_le_of_ne h.1 h.2)
    have hstrict₂ : List.Sorted blockLt (sortByBlock l₂) :=
      (List.Pairwise.and hs₂ hd₂).imp
        (fun h => Nat.lt_of_le_of_ne h.1 h.2)
    exact List.eq_of_perm_of_sorted hp hstrict₁ hstrict₂
  unfold reconcile
  rw [hsorteq]

/-- C6 (counterexample): a Scheduled and an Executed event for id 1 in the
same block (5), at log indices 0 and 1.  In arrival order
Scheduled-then-Executed the pass yields status `Executed`; in the swapped
arrival order the block-number-only stable sort keeps the Executed event
first (it does not break the tie by log position) and the pass panics with
"proposal not exist" — two permutations of one event set, two different
outcomes. -/
theorem reconcile_order_dependent_on_ties :
    ([exEvS, exEvE] : List (TimeLockEvents × LogMeta)).Perm [exEvE, exEvS] ∧
    (reconcile 100 (exTs 0) [exEvS, exEvE]).map
      (fun m => (m 1).map ProposalItem.status) =
      .ok (some ProposalStatus.Executed) ∧
    reconcile 100 (exTs 0) [exEvE, exEvS] = .error (.proposalNotExist 1) :=
  ⟨List.Perm.swap exEvE exEvS [], rfl, rfl⟩

/-- C6 (witness): two arrival orders of a Scheduled (block 1) and an
Executed (block 2) event for id 1 — distinct block numbers — reconcile
identically. -/
theorem reconcile_order_independent_witness :
    ([(.CallScheduledFilter exSched, exMeta 1 0),
      ((.CallExecutedFilter 1 : TimeLockEvents), exMeta 2 0)] :
        List (TimeLockEvents × LogMeta)).Perm
      [((.CallExecutedFilter 1 : TimeLockEvents), exMeta 2 0),
       (.CallScheduledFilter exSched, exMeta 1 0)] ∧
    ([(.CallScheduledFilter exSched, exMeta 1 0),
      ((.CallExecutedFilter 1 : TimeLockEvents), exMeta 2 0)] :
        List (TimeLockEvents × LogMeta)).Pairwise blockNe ∧
    reconcile 100 (exTs 0)
      [(.CallScheduledFilter exSched, exMeta 1 0),
       ((.CallExecutedFilter 1 : TimeLockEvents), exMeta 2 0)] =
    reconcile 100 (exTs 0)
      [((.CallExecutedFilter 1 : TimeLockEvents), exMeta 2 0),
       (.CallScheduledFilter exSched, exMeta 1 0)] :=
  ⟨List.Perm.swap ((.CallExecutedFilter 1 : TimeLockEvents), exMeta 2 0)
      (.CallScheduledFilter exSched, exMeta 1 0) [],
    by decide,
    reconcile_order_independent 100 (exTs 0) _ _
      (List.Perm.swap ((.CallExecutedFilter 1 : TimeLockEvents), exMeta 2 0)
        (.CallScheduledFilter exSched, exMeta 1 0) [])
      (by decide)⟩

end TimeLock
